import Mathlib

/-!
Verification development for the acp-validator-cli conformance-testing harness.

The definitions below are a shallow embedding of the repository's core logic:

* `TestStateManager` (src/core/test-state.ts): a mutable aggregator of streamed
  test outcomes.  JavaScript reference semantics matter for its snapshot
  behaviour (`getState` copies the `results` array and the categories `Map`
  shallowly, so `CategoryStats` objects stay shared), so the embedding carries
  an explicit heap of `CategoryStats` objects addressed by allocation ids:
  the manager's `categories` field and a snapshot's `categories` field both
  hold `(category name, heap reference)` pairs, and reading a category's
  statistics dereferences the heap current at observation time.
* `StreamReporter` (src/reporters/stream-reporter.ts): bridges a Vitest task
  tree to the manager, deduplicating tests by a `file::name` key.
* `toSatisfyApiSpec` (vitest.setup.ts): the schema conformance matcher.  The
  Ajv JSON-schema validator is an external library, so it is abstracted as a
  `validate` function parameter returning a list of violations; everything
  else (path, method, status resolution and diagnostics) is translated
  directly.
* `categorizeTest` (src/core/categories.ts): the ordered keyword classifier.

Numbers that JavaScript stores as `number` counters are embedded as `Int`
(they are incremented and decremented); durations likewise.  String lowering
is embedded as ASCII `Char.toLower` over the string's character data,
matching `toLowerCase` on the ASCII inputs the harness uses.
-/

/-- Terminal or pending status of a test outcome (reporters/types.ts). -/
inductive Status where
  | pass
  | fail
  | skip
  | pending
deriving DecidableEq

/-- Error detail attached to a failed test result (reporters/types.ts). -/
structure ErrorInfo where
  message : String
  stack : Option String
deriving DecidableEq

/-- TestResult record (reporters/types.ts): name, status, duration, optional
category and optional error detail. -/
structure TestResult where
  name : String
  status : Status
  duration : Int
  category : Option String
  error : Option ErrorInfo
deriving DecidableEq

/-- CategoryStats record (reporters/types.ts): per-category counters and the
list of results filed under the category. -/
structure CategoryStats where
  name : String
  passed : Int
  failed : Int
  skipped : Int
  total : Int
  tests : List TestResult
deriving DecidableEq

/-- Mutable state of `TestStateManager` (src/core/test-state.ts).  The
`categories` Map is embedded as an insertion-ordered association list from
category name to a heap reference; `heap` holds every `CategoryStats` object
ever allocated (JavaScript objects survive `Map.clear()` as long as a
snapshot still references them), and `nextRef` is the next fresh allocation
id. -/
structure ManagerState where
  results : List TestResult
  categories : List (String × Nat)
  heap : List (Nat × CategoryStats)
  nextRef : Nat
  passed : Int
  failed : Int
  skipped : Int
  total : Int
  isComplete : Bool
deriving DecidableEq

/-- State of a freshly constructed `TestStateManager`. -/
def initialState : ManagerState :=
  { results := []
    categories := []
    heap := []
    nextRef := 0
    passed := 0
    failed := 0
    skipped := 0
    total := 0
    isComplete := false }

/-- Indicator used for the `if (result.status === s) counter++` statements:
1 when the status equals the target, else 0. -/
def statusInd (st target : Status) : Int :=
  if st = target then 1 else 0

/-- Lookup in an insertion-ordered association list keyed by strings
(embedding of `Map.get` / `Map.has`). -/
def lookupName {β : Type} : List (String × β) → String → Option β
  | [], _ => none
  | (k, v) :: t, key => if k = key then some v else lookupName t key

/-- Heap read: the `CategoryStats` object stored under an allocation id. -/
def heapGet : List (Nat × CategoryStats) → Nat → Option CategoryStats
  | [], _ => none
  | (k, v) :: t, ref => if k = ref then some v else heapGet t ref

/-- Heap update: replace the first entry carrying the given reference
(mutation of the aliased `CategoryStats` object). -/
def heapSet : List (Nat × CategoryStats) → Nat → CategoryStats → List (Nat × CategoryStats)
  | [], _, _ => []
  | (k, v) :: t, ref, v' =>
    if k = ref then (k, v') :: t else (k, v) :: heapSet t ref v'

/-- Embedding of `results.findIndex(r => r.name === result.name)` followed by
`results[existingIndex] = result`: returns the first result carrying the same
name together with the results list after in-place replacement, or `none` when
no result carries the name. -/
def replaceByName : List TestResult → TestResult → Option (TestResult × List TestResult)
  | [], _ => none
  | r :: rs, result =>
    if r.name = result.name then some (r, result :: rs)
    else
      match replaceByName rs result with
      | some (old, rs') => some (old, r :: rs')
      | none => none

/-- Embedding of `stats.tests.findIndex(...)` plus `splice`: drop the first
result carrying the given name, or leave the list unchanged when absent. -/
def removeFirstByName : List TestResult → String → List TestResult
  | [], _ => []
  | t :: ts, name => if t.name = name then ts else t :: removeFirstByName ts name

/-- TestStateManager.removeCategoryTest: removes the result from its
category's tests array and decrements the category counters.  The source
dereferences `result.category!` and silently does nothing when the category
has no stats object yet. -/
def ManagerState.removeCategoryTest (m : ManagerState) (result : TestResult) : ManagerState :=
  match result.category with
  | none => m
  | some category =>
    match lookupName m.categories category with
    | none => m
    | some ref =>
      match heapGet m.heap ref with
      | none => m
      | some stats =>
        let newStats : CategoryStats :=
          { name := stats.name
            passed := stats.passed - statusInd result.status Status.pass
            failed := stats.failed - statusInd result.status Status.fail
            skipped := stats.skipped - statusInd result.status Status.skip
            total := stats.total - 1
            tests := removeFirstByName stats.tests result.name }
        { m with heap := heapSet m.heap ref newStats }

/-- First phase of TestStateManager.updateCategoryStats: the
`if (!this.categories.has(category)) this.categories.set(category, {...})`
statement.  Allocates a zeroed stats object for the category when absent. -/
def ManagerState.ensureCategory (m : ManagerState) (category : String) : ManagerState :=
  match lookupName m.categories category with
  | some _ => m
  | none =>
    { m with
      categories := m.categories ++ [(category, m.nextRef)]
      heap := m.heap ++ [(m.nextRef,
        { name := category
          passed := 0
          failed := 0
          skipped := 0
          total := 0
          tests := [] })]
      nextRef := m.nextRef + 1 }

/-- Second phase of TestStateManager.updateCategoryStats: the in-place
mutation `stats.tests.push(result); stats.total++; ...` of the category's
stats object. -/
def ManagerState.bumpCategory (m : ManagerState) (category : String) (result : TestResult) : ManagerState :=
  match lookupName m.categories category with
  | none => m
  | some ref =>
    match heapGet m.heap ref with
    | none => m
    | some stats =>
      let newStats : CategoryStats :=
        { name := stats.name
          passed := stats.passed + statusInd result.status Status.pass
          failed := stats.failed + statusInd result.status Status.fail
          skipped := stats.skipped + statusInd result.status Status.skip
          total := stats.total + 1
          tests := stats.tests ++ [result] }
      { m with heap := heapSet m.heap ref newStats }

/-- TestStateManager.updateCategoryStats: lazily allocates the category's
stats object on first use, then appends the result and increments the
counters, mutating the allocated object through the heap. -/
def ManagerState.updateCategoryStats (m : ManagerState) (result : TestResult) : ManagerState :=
  match result.category with
  | none => m
  | some category => (m.ensureCategory category).bumpCategory category result

/-- Guarded call `if (oldResult.category) this.removeCategoryTest(oldResult)`
inside TestStateManager.addResult. -/
def ManagerState.removeOrKeep (m : ManagerState) (oldResult : TestResult) : ManagerState :=
  match oldResult.category with
  | some _ => m.removeCategoryTest oldResult
  | none => m

/-- First phase of TestStateManager.addResult: the `if (existingIndex >= 0)`
block.  An existing result with the same name has its status contribution
subtracted, is replaced in place, and has its old category entry removed;
a new name is appended. -/
def ManagerState.correctExisting (m : ManagerState) (result : TestResult) : ManagerState :=
  match replaceByName m.results result with
  | some (oldResult, newResults) =>
    ManagerState.removeOrKeep
      { m with
        results := newResults
        passed := m.passed - statusInd oldResult.status Status.pass
        failed := m.failed - statusInd oldResult.status Status.fail
        skipped := m.skipped - statusInd oldResult.status Status.skip } oldResult
  | none => { m with results := m.results ++ [result] }

/-- Second phase of TestStateManager.addResult: increment the global counters
for the new status. -/
def ManagerState.bumpGlobal (m : ManagerState) (result : TestResult) : ManagerState :=
  { m with
    passed := m.passed + statusInd result.status Status.pass
    failed := m.failed + statusInd result.status Status.fail
    skipped := m.skipped + statusInd result.status Status.skip }

/-- TestStateManager.addResult: correction-aware ingestion of one outcome.
The old contribution (if any) is subtracted, the new status contribution is
added, and the category stats are updated when the result carries one. -/
def ManagerState.addResult (m : ManagerState) (result : TestResult) : ManagerState :=
  let m2 : ManagerState := (m.correctExisting result).bumpGlobal result
  match result.category with
  | some _ => m2.updateCategoryStats result
  | none => m2

/-- Snapshot returned by `getState`: the results array and the categories Map
are copied (`[...this.results]`, `new Map(this.categories)`), so the snapshot
owns the list of `(name, reference)` pairs but the referenced `CategoryStats`
objects stay shared with the manager. -/
structure TestState where
  results : List TestResult
  categories : List (String × Nat)
  passed : Int
  failed : Int
  skipped : Int
  total : Int
  isComplete : Bool
deriving DecidableEq

/-- TestStateManager.getState. -/
def ManagerState.getState (m : ManagerState) : TestState :=
  { results := m.results
    categories := m.categories
    passed := m.passed
    failed := m.failed
    skipped := m.skipped
    total := m.total
    isComplete := m.isComplete }

/-- Observation of one category of a snapshot: the stored heap reference is
dereferenced against the heap current at observation time, reflecting that
`new Map(...)` copies references, not objects. -/
def snapCategory (snap : TestState) (heap : List (Nat × CategoryStats)) (category : String) : Option CategoryStats :=
  match lookupName snap.categories category with
  | none => none
  | some ref => heapGet heap ref

/-- Observation of one category directly on the manager. -/
def ManagerState.viewCat (m : ManagerState) (category : String) : Option CategoryStats :=
  snapCategory m.getState m.heap category

/-- TestStateManager.onTestStart: only increments the `total` counter. -/
def ManagerState.onTestStart (m : ManagerState) (_name : String) : ManagerState :=
  { m with total := m.total + 1 }

/-- TestStateManager.onComplete. -/
def ManagerState.onComplete (m : ManagerState) : ManagerState :=
  { m with isComplete := true }

/-- TestStateManager.reset: clears results, the categories Map and the
counters.  The heap entries survive (`Map.clear()` does not mutate the
`CategoryStats` objects a snapshot may still reference) and allocation ids
stay fresh. -/
def ManagerState.reset (m : ManagerState) : ManagerState :=
  { m with
    results := []
    categories := []
    passed := 0
    failed := 0
    skipped := 0
    total := 0
    isComplete := false }

/-- Public operations of the aggregator, for reachability statements. -/
inductive AggregatorOp where
  | reset
  | testStart (name : String)
  | add (result : TestResult)
  | complete
deriving DecidableEq

/-- Apply one aggregator operation. -/
def applyOp (m : ManagerState) : AggregatorOp → ManagerState
  | AggregatorOp.reset => m.reset
  | AggregatorOp.testStart n => m.onTestStart n
  | AggregatorOp.add r => m.addResult r
  | AggregatorOp.complete => m.onComplete

/-- Run a finite sequence of aggregator operations from a given state. -/
def runOps (m : ManagerState) (ops : List AggregatorOp) : ManagerState :=
  ops.foldl applyOp m

/-- Indicator of a terminal (non-pending) status. -/
def terminalInd (r : TestResult) : Int :=
  if r.status = Status.pending then 0 else 1

/-- Number of stored results whose status is terminal, as an integer. -/
def terminalCount (rs : List TestResult) : Int :=
  rs.foldr (fun r acc => terminalInd r + acc) 0

/-- Counter consistency invariant of the aggregator. -/
def counterInvariant (m : ManagerState) : Prop :=
  m.passed + m.failed + m.skipped = terminalCount m.results


theorem terminalCount_cons (r : TestResult) (rs : List TestResult) :
    terminalCount (r :: rs) = terminalInd r + terminalCount rs := rfl

theorem terminalCount_append (rs : List TestResult) (r : TestResult) :
    terminalCount (rs ++ [r]) = terminalCount rs + terminalInd r := by
  induction rs with
  | nil => simp [terminalCount]
  | cons hd tl ih =>
    simp only [List.cons_append, terminalCount_cons, ih]
    omega

theorem replaceByName_terminalCount (rs : List TestResult) (r : TestResult) :
    ∀ old rs', replaceByName rs r = some (old, rs') →
      terminalCount rs' + terminalInd old = terminalCount rs + terminalInd r ∧
        rs'.length = rs.length := by
  induction rs with
  | nil => intro old rs' h; simp [replaceByName] at h
  | cons hd tl ih =>
    intro old rs' h
    rw [replaceByName] at h
    by_cases hn : hd.name = r.name
    · rw [if_pos hn] at h
      simp only [Option.some.injEq, Prod.mk.injEq] at h
      obtain ⟨h1, h2⟩ := h
      subst h1
      subst h2
      exact ⟨by simp only [terminalCount_cons]; omega, by simp⟩
    · rw [if_neg hn] at h
      cases hrec : replaceByName tl r with
      | none => rw [hrec] at h; cases h
      | some p =>
        obtain ⟨o, ts⟩ := p
        rw [hrec] at h
        simp only [Option.some.injEq, Prod.mk.injEq] at h
        obtain ⟨h1, h2⟩ := h
        subst h1
        subst h2
        obtain ⟨ihc, ihl⟩ := ih o ts hrec
        exact ⟨by simp only [terminalCount_cons]; omega, by simp [ihl]⟩

theorem heapGet_heapSet_self (h : List (Nat × CategoryStats)) (ref : Nat)
    (v stats : CategoryStats) (hh : heapGet h ref = some stats) :
    heapGet (heapSet h ref v) ref = some v := by
  induction h with
  | nil => simp [heapGet] at hh
  | cons hd tl ih =>
    obtain ⟨k, w⟩ := hd
    by_cases hk : k = ref
    · simp [heapSet, heapGet, hk]
    · rw [heapGet, if_neg hk] at hh
      rw [heapSet, if_neg hk, heapGet, if_neg hk]
      exact ih hh

theorem heapGet_heapSet_other (h : List (Nat × CategoryStats)) (ref r : Nat)
    (v : CategoryStats) (hne : r ≠ ref) :
    heapGet (heapSet h ref v) r = heapGet h r := by
  induction h with
  | nil => simp [heapSet]
  | cons hd tl ih =>
    obtain ⟨k, w⟩ := hd
    by_cases hk : k = ref
    · subst hk
      rw [heapSet, if_pos rfl, heapGet, heapGet, if_neg (fun hkr => hne hkr.symm),
        if_neg (fun hkr => hne hkr.symm)]
    · rw [heapSet, if_neg hk]
      by_cases hkr : k = r
      · rw [heapGet, if_pos hkr, heapGet, if_pos hkr]
      · rw [heapGet, if_neg hkr, heapGet, if_neg hkr]
        exact ih

theorem lookupName_append_self {β : Type} (l : List (String × β)) (k : String)
    (v : β) (h : lookupName l k = none) :
    lookupName (l ++ [(k, v)]) k = some v := by
  induction l with
  | nil => simp [lookupName]
  | cons hd tl ih =>
    obtain ⟨a, b⟩ := hd
    by_cases ha : a = k
    · rw [lookupName, if_pos ha] at h
      cases h
    · rw [lookupName, if_neg ha] at h
      rw [List.cons_append, lookupName, if_neg ha]
      exact ih h

theorem heapGet_append_self (l : List (Nat × CategoryStats)) (k : Nat)
    (v : CategoryStats) (h : heapGet l k = none) :
    heapGet (l ++ [(k, v)]) k = some v := by
  induction l with
  | nil => simp [heapGet]
  | cons hd tl ih =>
    obtain ⟨a, b⟩ := hd
    by_cases ha : a = k
    · rw [heapGet, if_pos ha] at h
      cases h
    · rw [heapGet, if_neg ha] at h
      rw [List.cons_append, heapGet, if_neg ha]
      exact ih h

theorem statusInd_total_eq (r : TestResult) :
    statusInd r.status Status.pass + statusInd r.status Status.fail +
      statusInd r.status Status.skip = terminalInd r := by
  cases hr : r.status <;> simp [statusInd, terminalInd, hr]

theorem removeCategoryTest_none (m : ManagerState) (r : TestResult)
    (hc : r.category = none) : m.removeCategoryTest r = m := by
  simp [ManagerState.removeCategoryTest, hc]

theorem removeCategoryTest_nolookup (m : ManagerState) (r : TestResult) (c : String)
    (hc : r.category = some c) (hl : lookupName m.categories c = none) :
    m.removeCategoryTest r = m := by
  simp [ManagerState.removeCategoryTest, hc, hl]

theorem removeCategoryTest_noheap (m : ManagerState) (r : TestResult) (c : String)
    (ref : Nat) (hc : r.category = some c) (hl : lookupName m.categories c = some ref)
    (hh : heapGet m.heap ref = none) : m.removeCategoryTest r = m := by
  simp [ManagerState.removeCategoryTest, hc, hl, hh]

theorem removeCategoryTest_existing (m : ManagerState) (r : TestResult) (c : String)
    (ref : Nat) (stats : CategoryStats) (hc : r.category = some c)
    (hl : lookupName m.categories c = some ref) (hh : heapGet m.heap ref = some stats) :
    m.removeCategoryTest r = { m with heap := (heapSet m.heap ref
      { name := stats.name
        passed := stats.passed - statusInd r.status Status.pass
        failed := stats.failed - statusInd r.status Status.fail
        skipped := stats.skipped - statusInd r.status Status.skip
        total := stats.total - 1
        tests := removeFirstByName stats.tests r.name }) } := by
  simp [ManagerState.removeCategoryTest, hc, hl, hh]

theorem removeCategoryTest_shape (m : ManagerState) (r : TestResult) :
    ∃ h', m.removeCategoryTest r = { m with heap := h' } := by
  cases hc : r.category with
  | none => exact ⟨m.heap, by rw [removeCategoryTest_none m r hc]⟩
  | some c =>
    cases hl : lookupName m.categories c with
    | none => exact ⟨m.heap, by rw [removeCategoryTest_nolookup m r c hc hl]⟩
    | some ref =>
      cases hh : heapGet m.heap ref with
      | none => exact ⟨m.heap, by rw [removeCategoryTest_noheap m r c ref hc hl hh]⟩
      | some stats => exact ⟨_, removeCategoryTest_existing m r c ref stats hc hl hh⟩

theorem ensureCategory_existing (m : ManagerState) (c : String) (ref : Nat)
    (hl : lookupName m.categories c = some ref) : m.ensureCategory c = m := by
  simp [ManagerState.ensureCategory, hl]

theorem ensureCategory_fresh (m : ManagerState) (c : String)
    (hl : lookupName m.categories c = none) :
    m.ensureCategory c =
      { m with
        categories := m.categories ++ [(c, m.nextRef)]
        heap := m.heap ++ [(m.nextRef,
          { name := c
            passed := 0
            failed := 0
            skipped := 0
            total := 0
            tests := [] })]
        nextRef := m.nextRef + 1 } := by
  simp [ManagerState.ensureCategory, hl]

theorem bumpCategory_nolookup (m : ManagerState) (c : String) (r : TestResult)
    (hl : lookupName m.categories c = none) : m.bumpCategory c r = m := by
  simp [ManagerState.bumpCategory, hl]

theorem bumpCategory_noheap (m : ManagerState) (c : String) (r : TestResult) (ref : Nat)
    (hl : lookupName m.categories c = some ref) (hh : heapGet m.heap ref = none) :
    m.bumpCategory c r = m := by
  simp [ManagerState.bumpCategory, hl, hh]

theorem bumpCategory_existing (m : ManagerState) (c : String) (r : TestResult)
    (ref : Nat) (stats : CategoryStats)
    (hl : lookupName m.categories c = some ref) (hh : heapGet m.heap ref = some stats) :
    m.bumpCategory c r = { m with heap := (heapSet m.heap ref
      { name := stats.name
        passed := stats.passed + statusInd r.status Status.pass
        failed := stats.failed + statusInd r.status Status.fail
        skipped := stats.skipped + statusInd r.status Status.skip
        total := stats.total + 1
        tests := stats.tests ++ [r] }) } := by
  simp [ManagerState.bumpCategory, hl, hh]

theorem bumpCategory_shape (m : ManagerState) (c : String) (r : TestResult) :
    ∃ h', m.bumpCategory c r = { m with heap := h' } := by
  cases hl : lookupName m.categories c with
  | none => exact ⟨m.heap, by rw [bumpCategory_nolookup m c r hl]⟩
  | some ref =>
    cases hh : heapGet m.heap ref with
    | none => exact ⟨m.heap, by rw [bumpCategory_noheap m c r ref hl hh]⟩
    | some stats => exact ⟨_, bumpCategory_existing m c r ref stats hl hh⟩

theorem ensureCategory_shape (m : ManagerState) (c : String) :
    ∃ cs h n, m.ensureCategory c = { m with categories := cs, heap := h, nextRef := n } := by
  cases hl : lookupName m.categories c with
  | some ref =>
    exact ⟨m.categories, m.heap, m.nextRef, by rw [ensureCategory_existing m c ref hl]⟩
  | none => exact ⟨_, _, _, ensureCategory_fresh m c hl⟩

theorem updateCategoryStats_none (m : ManagerState) (r : TestResult)
    (hc : r.category = none) : m.updateCategoryStats r = m := by
  simp [ManagerState.updateCategoryStats, hc]

theorem updateCategoryStats_some (m : ManagerState) (r : TestResult) (c : String)
    (hc : r.category = some c) :
    m.updateCategoryStats r = (m.ensureCategory c).bumpCategory c r := by
  simp [ManagerState.updateCategoryStats, hc]

theorem updateCategoryStats_shape (m : ManagerState) (r : TestResult) :
    ∃ cs h n, m.updateCategoryStats r = { m with categories := cs, heap := h, nextRef := n } := by
  cases hc : r.category with
  | none => exact ⟨m.categories, m.heap, m.nextRef, by rw [updateCategoryStats_none m r hc]⟩
  | some c =>
    obtain ⟨cs, h, n, he⟩ := ensureCategory_shape m c
    obtain ⟨h2, hb⟩ := bumpCategory_shape (m.ensureCategory c) c r
    rw [updateCategoryStats_some m r c hc, hb, he]
    exact ⟨cs, h2, n, rfl⟩

theorem addResult_fields (m : ManagerState) (r : TestResult) :
    (m.addResult r).results = (m.correctExisting r).results ∧
    (m.addResult r).passed = (m.correctExisting r).passed + statusInd r.status Status.pass ∧
    (m.addResult r).failed = (m.correctExisting r).failed + statusInd r.status Status.fail ∧
    (m.addResult r).skipped = (m.correctExisting r).skipped + statusInd r.status Status.skip ∧
    (m.addResult r).total = (m.correctExisting r).total ∧
    (m.addResult r).isComplete = (m.correctExisting r).isComplete := by
  cases hc : r.category with
  | none =>
    have e : m.addResult r = (m.correctExisting r).bumpGlobal r := by
      simp [ManagerState.addResult, hc]
    rw [e]
    exact ⟨rfl, rfl, rfl, rfl, rfl, rfl⟩
  | some c =>
    have e : m.addResult r = ((m.correctExisting r).bumpGlobal r).updateCategoryStats r := by
      simp [ManagerState.addResult, hc]
    obtain ⟨cs, h, n, e2⟩ := updateCategoryStats_shape ((m.correctExisting r).bumpGlobal r) r
    rw [e, e2]
    exact ⟨rfl, rfl, rfl, rfl, rfl, rfl⟩

theorem correctExisting_new (m : ManagerState) (r : TestResult)
    (h : replaceByName m.results r = none) :
    m.correctExisting r = { m with results := m.results ++ [r] } := by
  simp [ManagerState.correctExisting, h]

theorem correctExisting_replace_shape (m : ManagerState) (r old : TestResult)
    (rs' : List TestResult) (h : replaceByName m.results r = some (old, rs')) :
    ∃ h', m.correctExisting r =
      { m with
        results := rs'
        passed := m.passed - statusInd old.status Status.pass
        failed := m.failed - statusInd old.status Status.fail
        skipped := m.skipped - statusInd old.status Status.skip
        heap := h' } := by
  have e : m.correctExisting r =
      ManagerState.removeOrKeep
        { m with
          results := rs'
          passed := m.passed - statusInd old.status Status.pass
          failed := m.failed - statusInd old.status Status.fail
          skipped := m.skipped - statusInd old.status Status.skip } old := by
    simp [ManagerState.correctExisting, ManagerState.removeOrKeep, h]
  rw [e]
  unfold ManagerState.removeOrKeep
  cases hoc : old.category with
  | none => exact ⟨m.heap, by simp [hoc]⟩
  | some c =>
    obtain ⟨h', e'⟩ := removeCategoryTest_shape
      { m with
        results := rs'
        passed := m.passed - statusInd old.status Status.pass
        failed := m.failed - statusInd old.status Status.fail
        skipped := m.skipped - statusInd old.status Status.skip } old
    exact ⟨h', by simp [hoc, e']⟩

theorem counterInvariant_addResult (m : ManagerState) (r : TestResult)
    (hm : counterInvariant m) : counterInvariant (m.addResult r) := by
  obtain ⟨e1, e2, e3, e4, _, _⟩ := addResult_fields m r
  unfold counterInvariant at hm ⊢
  rw [e1, e2, e3, e4]
  have hnew := statusInd_total_eq r
  cases hrep : replaceByName m.results r with
  | none =>
    rw [correctExisting_new m r hrep]
    simp only [terminalCount_append]
    omega
  | some p =>
    obtain ⟨old, rs'⟩ := p
    obtain ⟨h', e⟩ := correctExisting_replace_shape m r old rs' hrep
    rw [e]
    obtain ⟨hc, _⟩ := replaceByName_terminalCount m.results r old rs' hrep
    have hold := statusInd_total_eq old
    simp only
    omega

theorem counterInvariant_applyOp (m : ManagerState) (op : AggregatorOp)
    (hm : counterInvariant m) : counterInvariant (applyOp m op) := by
  cases op with
  | reset => simp [applyOp, ManagerState.reset, counterInvariant, terminalCount]
  | testStart n => exact hm
  | add r => exact counterInvariant_addResult m r hm
  | complete => exact hm

theorem counterInvariant_runOps (ops : List AggregatorOp) :
    ∀ m : ManagerState, counterInvariant m → counterInvariant (runOps m ops) := by
  induction ops with
  | nil => intro m hm; exact hm
  | cons op rest ih => intro m hm; exact ih (applyOp m op) (counterInvariant_applyOp m op hm)

/-- C2: for every reachable state of the TestStateManager (any finite sequence
of reset, onTestStart, addResult and onComplete operations applied to the
initial state), the invariant `passed + failed + skipped = number of stored
results with a terminal status` holds, so an aborted run still yields a
consistent partial snapshot. -/
theorem aggregator_counter_invariant (ops : List AggregatorOp) :
    (runOps initialState ops).passed + (runOps initialState ops).failed +
      (runOps initialState ops).skipped = terminalCount (runOps initialState ops).results :=
  counterInvariant_runOps ops initialState (by simp [counterInvariant, initialState, terminalCount])

/-- Outcome pass for test name a, as in the spec's concrete scenario. -/
def scenarioPass : TestResult :=
  { name := "a", status := Status.pass, duration := 0, category := none, error := none }

/-- Outcome fail for test name a, as in the spec's concrete scenario. -/
def scenarioFail : TestResult :=
  { name := "a", status := Status.fail, duration := 0, category := none, error := none }

/-- State after recording pass then fail for name a on a fresh aggregator,
with no onTestStart call. -/
def scenarioNoStart : ManagerState :=
  (initialState.addResult scenarioPass).addResult scenarioFail

/-- State after onTestStart for a followed by recording pass then fail. -/
def scenarioWithStart : ManagerState :=
  ((initialState.onTestStart "a").addResult scenarioPass).addResult scenarioFail

/-- C3 counterexample: on a fresh aggregator, recording pass then fail for
name a does NOT leave total = 1, passed = 0, failed = 1 — `total` is only
incremented by onTestStart, so it stays 0 after the two addResult calls. -/
theorem addResult_scenario_total_cx :
    ¬ (scenarioNoStart.total = 1 ∧ scenarioNoStart.passed = 0 ∧ scenarioNoStart.failed = 1) := by
  decide

/-- C3 amended: recording pass then fail for name a on a fresh aggregator
leaves passed = 0, failed = 1 and exactly one stored result, but total = 0
because addResult never touches `total`; total reaches 1 exactly when
onTestStart was called once for the test before the outcomes were recorded. -/
theorem addResult_scenario_with_start :
    scenarioNoStart.passed = 0 ∧ scenarioNoStart.failed = 1 ∧
    scenarioNoStart.results.length = 1 ∧ scenarioNoStart.total = 0 ∧
    scenarioWithStart.total = 1 ∧ scenarioWithStart.passed = 0 ∧
    scenarioWithStart.failed = 1 ∧ scenarioWithStart.results.length = 1 := by
  decide

theorem terminalInd_one (r : TestResult) (h : r.status ≠ Status.pending) :
    terminalInd r = 1 := by
  simp [terminalInd, h]

theorem addResult_existing_eq (m : ManagerState) (r old : TestResult)
    (rs' : List TestResult) (c : String) (ref : Nat) (stats : CategoryStats)
    (hrep : replaceByName m.results r = some (old, rs'))
    (hoc : old.category = some c) (hrc : r.category = some c)
    (hlk : lookupName m.categories c = some ref)
    (hhp : heapGet m.heap ref = some stats) :
    m.addResult r =
      { m with
        results := rs'
        passed := m.passed - statusInd old.status Status.pass + statusInd r.status Status.pass
        failed := m.failed - statusInd old.status Status.fail + statusInd r.status Status.fail
        skipped := m.skipped - statusInd old.status Status.skip + statusInd r.status Status.skip
        heap := (heapSet (heapSet m.heap ref
          { name := stats.name
            passed := stats.passed - statusInd old.status Status.pass
            failed := stats.failed - statusInd old.status Status.fail
            skipped := stats.skipped - statusInd old.status Status.skip
            total := stats.total - 1
            tests := removeFirstByName stats.tests old.name }) ref
          { name := stats.name
            passed := stats.passed - statusInd old.status Status.pass + statusInd r.status Status.pass
            failed := stats.failed - statusInd old.status Status.fail + statusInd r.status Status.fail
            skipped := stats.skipped - statusInd old.status Status.skip + statusInd r.status Status.skip
            total := stats.total - 1 + 1
            tests := removeFirstByName stats.tests old.name ++ [r] }) } := by
  have hh1 : heapGet (heapSet m.heap ref
      { name := stats.name
        passed := stats.passed - statusInd old.status Status.pass
        failed := stats.failed - statusInd old.status Status.fail
        skipped := stats.skipped - statusInd old.status Status.skip
        total := stats.total - 1
        tests := removeFirstByName stats.tests old.name }) ref = some
      { name := stats.name
        passed := stats.passed - statusInd old.status Status.pass
        failed := stats.failed - statusInd old.status Status.fail
        skipped := stats.skipped - statusInd old.status Status.skip
        total := stats.total - 1
        tests := removeFirstByName stats.tests old.name } :=
    heapGet_heapSet_self m.heap ref _ stats hhp
  simp [ManagerState.addResult, ManagerState.correctExisting, ManagerState.removeOrKeep,
    ManagerState.removeCategoryTest, ManagerState.updateCategoryStats,
    ManagerState.ensureCategory, ManagerState.bumpCategory, ManagerState.bumpGlobal,
    hrep, hoc, hrc, hlk, hhp, hh1]

/-- C1: recording a result via addResult whose name matches a previously
recorded outcome with a different terminal status is treated as a correction:
the old contribution is subtracted from the global counters and from the
category's counters before the new contribution is added, the global
counters change by exactly the delta between old and new status, `total`
and the number of stored results are unchanged, and nothing double-counts
(the sum passed + failed + skipped is preserved). -/
theorem addResult_correction_delta (m : ManagerState) (r old : TestResult)
    (rs' : List TestResult) (c : String) (ref : Nat) (stats : CategoryStats)
    (hrep : replaceByName m.results r = some (old, rs'))
    (hot : old.status ≠ Status.pending) (hnt : r.status ≠ Status.pending)
    (hdiff : old.status ≠ r.status)
    (hoc : old.category = some c) (hrc : r.category = some c)
    (hlk : lookupName m.categories c = some ref)
    (hhp : heapGet m.heap ref = some stats) :
    (m.addResult r).passed =
      m.passed - statusInd old.status Status.pass + statusInd r.status Status.pass ∧
    (m.addResult r).failed =
      m.failed - statusInd old.status Status.fail + statusInd r.status Status.fail ∧
    (m.addResult r).skipped =
      m.skipped - statusInd old.status Status.skip + statusInd r.status Status.skip ∧
    (m.addResult r).total = m.total ∧
    (m.addResult r).results.length = m.results.length ∧
    (m.addResult r).passed + (m.addResult r).failed + (m.addResult r).skipped =
      m.passed + m.failed + m.skipped ∧
    (m.addResult r).viewCat c = some
      { name := stats.name
        passed := stats.passed - statusInd old.status Status.pass + statusInd r.status Status.pass
        failed := stats.failed - statusInd old.status Status.fail + statusInd r.status Status.fail
        skipped := stats.skipped - statusInd old.status Status.skip + statusInd r.status Status.skip
        total := stats.total
        tests := removeFirstByName stats.tests old.name ++ [r] } := by
  have e := addResult_existing_eq m r old rs' c ref stats hrep hoc hrc hlk hhp
  obtain ⟨_, hlen⟩ := replaceByName_terminalCount m.results r old rs' hrep
  have ho := statusInd_total_eq old
  have hn := statusInd_total_eq r
  have ho1 := terminalInd_one old hot
  have hn1 := terminalInd_one r hnt
  have hh1 : heapGet (heapSet m.heap ref
      { name := stats.name
        passed := stats.passed - statusInd old.status Status.pass
        failed := stats.failed - statusInd old.status Status.fail
        skipped := stats.skipped - statusInd old.status Status.skip
        total := stats.total - 1
        tests := removeFirstByName stats.tests old.name }) ref = some
      { name := stats.name
        passed := stats.passed - statusInd old.status Status.pass
        failed := stats.failed - statusInd old.status Status.fail
        skipped := stats.skipped - statusInd old.status Status.skip
        total := stats.total - 1
        tests := removeFirstByName stats.tests old.name } :=
    heapGet_heapSet_self m.heap ref _ stats hhp
  have hh2 := heapGet_heapSet_self (heapSet m.heap ref
      { name := stats.name
        passed := stats.passed - statusInd old.status Status.pass
        failed := stats.failed - statusInd old.status Status.fail
        skipped := stats.skipped - statusInd old.status Status.skip
        total := stats.total - 1
        tests := removeFirstByName stats.tests old.name }) ref
      { name := stats.name
        passed := stats.passed - statusInd old.status Status.pass + statusInd r.status Status.pass
        failed := stats.failed - statusInd old.status Status.fail + statusInd r.status Status.fail
        skipped := stats.skipped - statusInd old.status Status.skip + statusInd r.status Status.skip
        total := stats.total - 1 + 1
        tests := removeFirstByName stats.tests old.name ++ [r] } _ hh1
  refine ⟨by rw [e], by rw [e], by rw [e], by rw [e], by rw [e]; exact hlen, ?_, ?_⟩
  · rw [e]
    dsimp only
    omega
  · rw [e]
    rw [show stats.total - 1 + 1 = stats.total from by omega] at hh2
    simp [ManagerState.viewCat, snapCategory, ManagerState.getState, hlk, hh2]

/-- Result pass for test a in category C, used to instantiate the correction
theorem. -/
def corrPass : TestResult :=
  { name := "a", status := Status.pass, duration := 0, category := some "C", error := none }

/-- Result fail for test a in category C, correcting `corrPass`. -/
def corrFail : TestResult :=
  { name := "a", status := Status.fail, duration := 0, category := some "C", error := none }

/-- Aggregator state holding the pass outcome for test a. -/
def corrBase : ManagerState := initialState.addResult corrPass

/-- Witness instantiating the correction theorem: pass then fail for test a
leaves passed = 0, failed = 1, one stored result, total untouched, and the
category stats corrected as well. -/
theorem addResult_correction_delta_witness :
    (corrBase.addResult corrFail).passed = 0 ∧
    (corrBase.addResult corrFail).failed = 1 ∧
    (corrBase.addResult corrFail).total = 0 ∧
    (corrBase.addResult corrFail).results.length = 1 ∧
    (corrBase.addResult corrFail).viewCat "C" = some
      { name := "C", passed := 0, failed := 1, skipped := 0, total := 1, tests := [corrFail] } := by
  obtain ⟨h1, h2, h3, h4, h5, h6, h7⟩ :=
    addResult_correction_delta corrBase corrFail corrPass [corrFail] "C" 0
      { name := "C", passed := 1, failed := 0, skipped := 0, total := 1, tests := [corrPass] }
      (by decide) (by decide) (by decide) (by decide) (by decide) (by decide)
      (by decide) (by decide)
  refine ⟨?_, ?_, ?_, ?_, ?_⟩
  · rw [h1]; decide
  · rw [h2]; decide
  · rw [h4]; decide
  · rw [h5]; decide
  · rw [h7]; decide

theorem addResult_nocat_new_heap (m : ManagerState) (r : TestResult)
    (hc : r.category = none) (hrep : replaceByName m.results r = none) :
    (m.addResult r).heap = m.heap := by
  have e0 : m.addResult r = (m.correctExisting r).bumpGlobal r := by
    simp [ManagerState.addResult, hc]
  rw [e0, correctExisting_new m r hrep]
  rfl

theorem addResult_nocat_replace_heap (m : ManagerState) (r old : TestResult)
    (rs' : List TestResult) (hc : r.category = none) (holdc : old.category = none)
    (hrep : replaceByName m.results r = some (old, rs')) :
    (m.addResult r).heap = m.heap := by
  have e0 : m.addResult r = (m.correctExisting r).bumpGlobal r := by
    simp [ManagerState.addResult, hc]
  have e1 : m.correctExisting r =
      { m with
        results := rs'
        passed := m.passed - statusInd old.status Status.pass
        failed := m.failed - statusInd old.status Status.fail
        skipped := m.skipped - statusInd old.status Status.skip } := by
    simp [ManagerState.correctExisting, ManagerState.removeOrKeep, hrep, holdc]
  rw [e0, e1]
  rfl

/-- Result pass for test a in category C used for the snapshot-sharing
scenario. -/
def sharedCatA : TestResult :=
  { name := "a", status := Status.pass, duration := 0, category := some "C", error := none }

/-- Result pass for test b in category C, recorded after the snapshot. -/
def sharedCatB : TestResult :=
  { name := "b", status := Status.pass, duration := 0, category := some "C", error := none }

/-- Aggregator state holding the pass outcome for test a in category C. -/
def sharedCatBase : ManagerState := initialState.addResult sharedCatA

/-- C8 counterexample: a TestState returned by getState is NOT fully
unaffected by subsequent operations — `new Map(this.categories)` copies
references, so after a later addResult touching category C the snapshot's
view of that category's stats (counters and tests array) has changed. -/
theorem getState_snapshot_cx :
    snapCategory sharedCatBase.getState (sharedCatBase.addResult sharedCatB).heap "C" ≠
      snapCategory sharedCatBase.getState sharedCatBase.heap "C" := by
  decide

/-- C8 amended: the snapshot's results list and its scalar counters are
copied by value and never change; onTestStart, onComplete and reset leave
the heap of CategoryStats objects untouched, so every category view of an
earlier snapshot is unchanged by them, and an addResult whose result has no
category (and whose replaced result, if any, had none) leaves the heap
unchanged too; only an addResult touching a category can mutate the shared
CategoryStats seen through an earlier snapshot. -/
theorem getState_snapshot_sharing (m : ManagerState) (n : String) (c : String) :
    snapCategory m.getState (m.onTestStart n).heap c = snapCategory m.getState m.heap c ∧
    snapCategory m.getState m.onComplete.heap c = snapCategory m.getState m.heap c ∧
    snapCategory m.getState m.reset.heap c = snapCategory m.getState m.heap c ∧
    ((m.getState).results = m.results ∧ (m.getState).passed = m.passed ∧
      (m.getState).failed = m.failed ∧ (m.getState).skipped = m.skipped ∧
      (m.getState).total = m.total ∧ (m.getState).isComplete = m.isComplete) ∧
    (∀ r : TestResult, r.category = none → replaceByName m.results r = none →
      (m.addResult r).heap = m.heap) ∧
    (∀ (r old : TestResult) (rs' : List TestResult), r.category = none →
      old.category = none → replaceByName m.results r = some (old, rs') →
      (m.addResult r).heap = m.heap) := by
  refine ⟨rfl, rfl, rfl, ⟨rfl, rfl, rfl, rfl, rfl, rfl⟩, ?_, ?_⟩
  · intro r hc hrep
    exact addResult_nocat_new_heap m r hc hrep
  · intro r old rs' hc holdc hrep
    exact addResult_nocat_replace_heap m r old rs' hc holdc hrep

/-- Witness instantiating the amended snapshot theorem on the concrete
sharing scenario. -/
theorem getState_snapshot_sharing_witness :
    snapCategory sharedCatBase.getState (sharedCatBase.onTestStart "x").heap "C" =
      snapCategory sharedCatBase.getState sharedCatBase.heap "C" ∧
    (sharedCatBase.addResult
      { name := "z", status := Status.pass, duration := 0, category := none, error := none }).heap =
      sharedCatBase.heap := by
  obtain ⟨h1, _, _, _, h5, _⟩ := getState_snapshot_sharing sharedCatBase "x" "C"
  exact ⟨h1, h5 _ rfl (by decide)⟩

theorem addResult_new_cat_existing_eq (m : ManagerState) (r : TestResult) (c : String)
    (ref : Nat) (stats : CategoryStats)
    (hrep : replaceByName m.results r = none) (hc : r.category = some c)
    (hl : lookupName m.categories c = some ref) (hh : heapGet m.heap ref = some stats) :
    m.addResult r =
      { m with
        results := m.results ++ [r]
        passed := m.passed + statusInd r.status Status.pass
        failed := m.failed + statusInd r.status Status.fail
        skipped := m.skipped + statusInd r.status Status.skip
        heap := (heapSet m.heap ref
          { name := stats.name
            passed := stats.passed + statusInd r.status Status.pass
            failed := stats.failed + statusInd r.status Status.fail
            skipped := stats.skipped + statusInd r.status Status.skip
            total := stats.total + 1
            tests := stats.tests ++ [r] }) } := by
  simp [ManagerState.addResult, ManagerState.correctExisting, ManagerState.bumpGlobal,
    ManagerState.updateCategoryStats, ManagerState.ensureCategory, ManagerState.bumpCategory,
    hrep, hc, hl, hh]

theorem addResult_new_cat_fresh_eq (m : ManagerState) (r : TestResult) (c : String)
    (hrep : replaceByName m.results r = none) (hc : r.category = some c)
    (hl : lookupName m.categories c = none)
    (hfresh : heapGet m.heap m.nextRef = none) :
    m.addResult r =
      { m with
        results := m.results ++ [r]
        categories := m.categories ++ [(c, m.nextRef)]
        heap := (heapSet (m.heap ++ [(m.nextRef,
          { name := c, passed := 0, failed := 0, skipped := 0, total := 0, tests := [] })])
          m.nextRef
          { name := c
            passed := statusInd r.status Status.pass
            failed := statusInd r.status Status.fail
            skipped := statusInd r.status Status.skip
            total := 1
            tests := [r] })
        nextRef := m.nextRef + 1
        passed := m.passed + statusInd r.status Status.pass
        failed := m.failed + statusInd r.status Status.fail
        skipped := m.skipped + statusInd r.status Status.skip } := by
  have hlup : lookupName (m.categories ++ [(c, m.nextRef)]) c = some m.nextRef :=
    lookupName_append_self m.categories c m.nextRef hl
  have hget : heapGet (m.heap ++ [(m.nextRef,
      { name := c, passed := 0, failed := 0, skipped := 0, total := 0, tests := [] })])
      m.nextRef = some
      { name := c, passed := 0, failed := 0, skipped := 0, total := 0, tests := [] } :=
    heapGet_append_self m.heap m.nextRef _ hfresh
  simp [ManagerState.addResult, ManagerState.correctExisting, ManagerState.bumpGlobal,
    ManagerState.updateCategoryStats, ManagerState.ensureCategory, ManagerState.bumpCategory,
    hrep, hc, hl, hlup, hget]

/-- C9: adding a pending result under a fresh name leaves all global
counters (passed, failed, skipped, total) unchanged while appending the
result to the results list; when the result carries a category, that
category's tests array gains the entry and its total increments by one
while its passed/failed/skipped counters stay unchanged (a missing category
bucket is lazily created with total 1 and zero counters). -/
theorem addResult_pending_new (m : ManagerState) (r : TestResult)
    (hpend : r.status = Status.pending)
    (hrep : replaceByName m.results r = none) :
    (m.addResult r).passed = m.passed ∧
    (m.addResult r).failed = m.failed ∧
    (m.addResult r).skipped = m.skipped ∧
    (m.addResult r).total = m.total ∧
    (m.addResult r).results = m.results ++ [r] ∧
    (∀ (c : String) (ref : Nat) (stats : CategoryStats), r.category = some c →
      lookupName m.categories c = some ref → heapGet m.heap ref = some stats →
      (m.addResult r).viewCat c = some
        { name := stats.name
          passed := stats.passed
          failed := stats.failed
          skipped := stats.skipped
          total := stats.total + 1
          tests := stats.tests ++ [r] }) ∧
    (∀ c : String, r.category = some c → lookupName m.categories c = none →
      heapGet m.heap m.nextRef = none →
      (m.addResult r).viewCat c = some
        { name := c, passed := 0, failed := 0, skipped := 0, total := 1, tests := [r] }) := by
  have h0p : statusInd r.status Status.pass = 0 := by simp [hpend, statusInd]
  have h0f : statusInd r.status Status.fail = 0 := by simp [hpend, statusInd]
  have h0s : statusInd r.status Status.skip = 0 := by simp [hpend, statusInd]
  have ecn := correctExisting_new m r hrep
  obtain ⟨e1, e2, e3, e4, e5, _⟩ := addResult_fields m r
  rw [ecn] at e1 e2 e3 e4 e5
  refine ⟨?_, ?_, ?_, ?_, ?_, ?_, ?_⟩
  · rw [e2]
    dsimp only
    omega
  · rw [e3]
    dsimp only
    omega
  · rw [e4]
    dsimp only
    omega
  · rw [e5]
  · rw [e1]
  · intro c ref stats hc hl hh
    rw [addResult_new_cat_existing_eq m r c ref stats hrep hc hl hh]
    have hhs : heapGet (heapSet m.heap ref
        { name := stats.name
          passed := stats.passed
          failed := stats.failed
          skipped := stats.skipped
          total := stats.total + 1
          tests := stats.tests ++ [r] }) ref = some
        { name := stats.name
          passed := stats.passed
          failed := stats.failed
          skipped := stats.skipped
          total := stats.total + 1
          tests := stats.tests ++ [r] } :=
      heapGet_heapSet_self m.heap ref _ stats hh
    simp [ManagerState.viewCat, snapCategory, ManagerState.getState, hl, h0p, h0f, h0s, hhs]
  · intro c hc hl hfresh
    rw [addResult_new_cat_fresh_eq m r c hrep hc hl hfresh]
    have hlup : lookupName (m.categories ++ [(c, m.nextRef)]) c = some m.nextRef :=
      lookupName_append_self m.categories c m.nextRef hl
    have hget : heapGet (m.heap ++ [(m.nextRef,
        { name := c, passed := 0, failed := 0, skipped := 0, total := 0, tests := [] })])
        m.nextRef = some
        { name := c, passed := 0, failed := 0, skipped := 0, total := 0, tests := [] } :=
      heapGet_append_self m.heap m.nextRef _ hfresh
    have hhs2 : heapGet (heapSet (m.heap ++ [(m.nextRef,
        { name := c, passed := 0, failed := 0, skipped := 0, total := 0, tests := [] })])
        m.nextRef
        { name := c, passed := 0, failed := 0, skipped := 0, total := 1, tests := [r] })
        m.nextRef = some
        { name := c, passed := 0, failed := 0, skipped := 0, total := 1, tests := [r] } :=
      heapGet_heapSet_self _ m.nextRef _ _ hget
    simp [ManagerState.viewCat, snapCategory, ManagerState.getState, hlup, h0p, h0f, h0s, hhs2]

/-- Seed pass result for test a in category C. -/
def pendSeed : TestResult :=
  { name := "a", status := Status.pass, duration := 0, category := some "C", error := none }

/-- Pending result for test p in category C. -/
def pendNew : TestResult :=
  { name := "p", status := Status.pending, duration := 0, category := some "C", error := none }

/-- Aggregator state holding the seed pass outcome. -/
def pendBase : ManagerState := initialState.addResult pendSeed

/-- Witness instantiating the pending-result theorem: on both an existing
and a fresh category bucket. -/
theorem addResult_pending_new_witness :
    (pendBase.addResult pendNew).passed = pendBase.passed ∧
    (pendBase.addResult pendNew).total = pendBase.total ∧
    (pendBase.addResult pendNew).viewCat "C" = some
      { name := "C", passed := 1, failed := 0, skipped := 0, total := 2
        tests := [pendSeed, pendNew] } ∧
    (initialState.addResult pendNew).viewCat "C" = some
      { name := "C", passed := 0, failed := 0, skipped := 0, total := 1, tests := [pendNew] } := by
  obtain ⟨h1, _, _, h4, _, h6, _⟩ := addResult_pending_new pendBase pendNew rfl (by decide)
  obtain ⟨_, _, _, _, _, _, g7⟩ := addResult_pending_new initialState pendNew rfl (by decide)
  refine ⟨h1, h4, ?_, ?_⟩
  · rw [h6 "C" 0
      { name := "C", passed := 1, failed := 0, skipped := 0, total := 1, tests := [pendSeed] }
      rfl (by decide) (by decide)]
    decide
  · rw [g7 "C" rfl (by decide) (by decide)]

/-- Error object inside a Vitest task result (`task.result?.errors[i]`). -/
structure VitestError where
  message : Option String
  stack : Option String
deriving DecidableEq

/-- Result object of a Vitest task (`task.result`), with optional state,
duration and errors. -/
structure TaskResult where
  state : Option String
  duration : Option Int
  errors : Option (List VitestError)
deriving DecidableEq

/-- Data of a Vitest test task: its name, its file's name
(`task.file?.name`) and its optional result. -/
structure TestInfo where
  name : String
  fileName : Option String
  result : Option TaskResult
deriving DecidableEq

/-- Vitest task tree: a task is either a test or a suite of nested tasks. -/
inductive TaskTree where
  | test (info : TestInfo)
  | suite (tasks : List TaskTree)

/-- Vitest file object passed to onFinished: name plus root tasks. -/
structure VFile where
  name : String
  tasks : List TaskTree

/-- StreamReporter.mapStatus: maps a Vitest state string onto the
simplified status, defaulting to pending. -/
def mapStatus (state : String) : Status :=
  if state = "pass" then Status.pass
  else if state = "fail" then Status.fail
  else if state = "skip" then Status.skip
  else Status.pending

/-- Dedup key for a test: `${task.file?.name || 'unknown'}::${task.name}`
(an absent or empty file name is the falsy case of `||`). -/
def testKey (info : TestInfo) : String :=
  (match info.fileName with
   | some n => if n = "" then "unknown" else n
   | none => "unknown") ++ "::" ++ info.name

/-- TestResult built by StreamReporter.processTaskResults from a test task:
state defaults to pending (also for an empty state string, the falsy case of
`||`), duration defaults to 0, and the error field is attached exactly when
the errors array is non-empty, with `message || 'Unknown error'`. -/
def buildResult (info : TestInfo) : TestResult :=
  { name := info.name
    status := mapStatus (match info.result with
      | some res =>
        match res.state with
        | some s => if s = "" then "pending" else s
        | none => "pending"
      | none => "pending")
    duration := (match info.result with
      | some res =>
        match res.duration with
        | some d => d
        | none => 0
      | none => 0)
    category := none
    error := (match info.result with
      | some res =>
        match res.errors with
        | some (e :: _) => some
          { message := (match e.message with
              | some msg => if msg = "" then "Unknown error" else msg
              | none => "Unknown error")
            stack := e.stack }
        | some [] => none
        | none => none
      | none => none) }

/-- State of a StreamReporter together with its TestStateManager.  The
`addLog` field is verification instrumentation only: it records, in order,
the dedup key of every task for which `addResult` was invoked, so that
at-most-once processing is an observable property.  It is cleared exactly
when `processedTests` is cleared. -/
structure ReporterState where
  processedTests : List String
  manager : ManagerState
  addLog : List String
deriving DecidableEq

/-- One test task inside StreamReporter.processTaskResults: skip it when its
key was already processed, otherwise record the key and push the built
result into the manager. -/
def processTest (s : ReporterState) (info : TestInfo) : ReporterState :=
  if testKey info ∈ s.processedTests then s
  else
    { processedTests := s.processedTests ++ [testKey info]
      manager := s.manager.addResult (buildResult info)
      addLog := s.addLog ++ [testKey info] }

/-- StreamReporter.processTaskResults: recurse into suites, process each
test at most once per reporter lifetime. -/
def processTasks : ReporterState → List TaskTree → ReporterState
  | s, [] => s
  | s, TaskTree.suite children :: ts => processTasks (processTasks s children) ts
  | s, TaskTree.test info :: ts => processTasks (processTest s info) ts

/-- StreamReporter.onInit: reset the manager and clear the processed set. -/
def reporterInit (s : ReporterState) : ReporterState :=
  { processedTests := []
    manager := s.manager.reset
    addLog := [] }

/-- Fold of processTaskResults over every file's task tree inside
StreamReporter.onFinished. -/
def foldFiles (s : ReporterState) (files : List VFile) : ReporterState :=
  files.foldl (fun acc file => processTasks acc file.tasks) s

/-- StreamReporter.onFinished: process every file's task tree, then mark the
manager complete. -/
def onFinished (s : ReporterState) (files : List VFile) : ReporterState :=
  { foldFiles s files with manager := (foldFiles s files).manager.onComplete }

/-- Dedup keys of all tests in a task forest, in processing order. -/
def treeKeys : List TaskTree → List String
  | [] => []
  | TaskTree.suite children :: ts => treeKeys children ++ treeKeys ts
  | TaskTree.test info :: ts => testKey info :: treeKeys ts

/-- Dedup keys of all tests of a list of files. -/
def filesKeys : List VFile → List String
  | [] => []
  | f :: fs => treeKeys f.tasks ++ filesKeys fs

/-- Ghost-log well-formedness: every logged key is in the processed set and
no key was logged twice. -/
def reporterInvariant (s : ReporterState) : Prop :=
  s.addLog.Nodup ∧ ∀ k ∈ s.addLog, k ∈ s.processedTests

theorem processTest_mono (s : ReporterState) (info : TestInfo) (k : String)
    (h : k ∈ s.processedTests) : k ∈ (processTest s info).processedTests := by
  unfold processTest
  by_cases hmem : testKey info ∈ s.processedTests
  · simp [hmem, h]
  · simp [hmem]
    exact Or.inl h

theorem processTest_key (s : ReporterState) (info : TestInfo) :
    testKey info ∈ (processTest s info).processedTests := by
  unfold processTest
  by_cases hmem : testKey info ∈ s.processedTests
  · simp [hmem]
  · simp [hmem]

theorem processTest_skip (s : ReporterState) (info : TestInfo)
    (h : testKey info ∈ s.processedTests) : processTest s info = s := by
  unfold processTest
  simp [h]

theorem processTest_inv (s : ReporterState) (info : TestInfo)
    (h : reporterInvariant s) : reporterInvariant (processTest s info) := by
  obtain ⟨hnd, hsub⟩ := h
  unfold processTest
  by_cases hmem : testKey info ∈ s.processedTests
  · simpa [hmem] using ⟨hnd, hsub⟩
  · simp only [hmem, if_false, reporterInvariant]
    constructor
    · rw [List.nodup_append]
      refine ⟨hnd, List.nodup_singleton _, ?_⟩
      intro a ha hb
      rw [List.mem_singleton] at hb
      subst hb
      exact hmem (hsub _ ha)
    · intro k hk
      rw [List.mem_append] at hk
      rcases hk with hk | hk
      · exact List.mem_append_left _ (hsub k hk)
      · exact List.mem_append_right _ hk

theorem processTasks_mono (s : ReporterState) (ts : List TaskTree) :
    ∀ k, k ∈ s.processedTests → k ∈ (processTasks s ts).processedTests := by
  induction s, ts using processTasks.induct with
  | case1 s => intro k hk; simpa [processTasks] using hk
  | case2 s children ts ih1 ih2 =>
    intro k hk
    simp only [processTasks]
    exact ih2 k (ih1 k hk)
  | case3 s info ts ih =>
    intro k hk
    simp only [processTasks]
    exact ih k (processTest_mono s info k hk)

theorem processTasks_complete (s : ReporterState) (ts : List TaskTree) :
    ∀ k ∈ treeKeys ts, k ∈ (processTasks s ts).processedTests := by
  induction s, ts using processTasks.induct with
  | case1 s => intro k hk; simp [treeKeys] at hk
  | case2 s children ts ih1 ih2 =>
    intro k hk
    simp only [treeKeys, List.mem_append] at hk
    simp only [processTasks]
    rcases hk with hk | hk
    · exact processTasks_mono _ ts k (ih1 k hk)
    · exact ih2 k hk
  | case3 s info ts ih =>
    intro k hk
    simp only [treeKeys, List.mem_cons] at hk
    simp only [processTasks]
    rcases hk with hk | hk
    · subst hk
      exact processTasks_mono _ ts _ (processTest_key s info)
    · exact ih k hk

theorem processTasks_skip (s : ReporterState) (ts : List TaskTree)
    (h : ∀ k ∈ treeKeys ts, k ∈ s.processedTests) : processTasks s ts = s := by
  induction s, ts using processTasks.induct with
  | case1 s => simp [processTasks]
  | case2 s children ts ih1 ih2 =>
    simp only [treeKeys, List.mem_append] at h
    have e1 : processTasks s children = s :=
      ih1 (fun k hk => h k (Or.inl hk))
    rw [e1] at ih2
    simp only [processTasks, e1]
    exact ih2 (fun k hk => h k (Or.inr hk))
  | case3 s info ts ih =>
    simp only [treeKeys, List.mem_cons] at h
    have e1 : processTest s info = s := processTest_skip s info (h _ (Or.inl rfl))
    rw [e1] at ih
    simp only [processTasks, e1]
    exact ih (fun k hk => h k (Or.inr hk))

theorem processTasks_inv (s : ReporterState) (ts : List TaskTree)
    (h : reporterInvariant s) : reporterInvariant (processTasks s ts) := by
  induction s, ts using processTasks.induct with
  | case1 s => simpa [processTasks] using h
  | case2 s children ts ih1 ih2 =>
    simp only [processTasks]
    exact ih2 (ih1 h)
  | case3 s info ts ih =>
    simp only [processTasks]
    exact ih (processTest_inv s info h)

theorem foldFiles_mono (files : List VFile) :
    ∀ (s : ReporterState) (k : String), k ∈ s.processedTests →
      k ∈ (foldFiles s files).processedTests := by
  induction files with
  | nil => intro s k hk; exact hk
  | cons f fs ih =>
    intro s k hk
    exact ih (processTasks s f.tasks) k (processTasks_mono s f.tasks k hk)

theorem foldFiles_complete (files : List VFile) :
    ∀ (s : ReporterState) (k : String), k ∈ filesKeys files →
      k ∈ (foldFiles s files).processedTests := by
  induction files with
  | nil => intro s k hk; simp [filesKeys] at hk
  | cons f fs ih =>
    intro s k hk
    simp only [filesKeys, List.mem_append] at hk
    rcases hk with hk | hk
    · exact foldFiles_mono fs (processTasks s f.tasks) k (processTasks_complete s f.tasks k hk)
    · exact ih (processTasks s f.tasks) k hk

theorem foldFiles_skip (files : List VFile) :
    ∀ s : ReporterState, (∀ k ∈ filesKeys files, k ∈ s.processedTests) →
      foldFiles s files = s := by
  induction files with
  | nil => intro s _; rfl
  | cons f fs ih =>
    intro s h
    simp only [filesKeys, List.mem_append] at h
    have e1 : processTasks s f.tasks = s :=
      processTasks_skip s f.tasks (fun k hk => h k (Or.inl hk))
    show foldFiles (processTasks s f.tasks) fs = s
    rw [e1]
    exact ih s (fun k hk => h k (Or.inr hk))

theorem foldFiles_inv (files : List VFile) :
    ∀ s : ReporterState, reporterInvariant s → reporterInvariant (foldFiles s files) := by
  induction files with
  | nil => intro s h; exact h
  | cons f fs ih =>
    intro s h
    exact ih (processTasks s f.tasks) (processTasks_inv s f.tasks h)

/-- C10: the StreamReporter processes each (file, test) identity at most
once per run: across arbitrary overlapping file and suite trees with no
intervening onInit, a second onFinished with the same files is the identity
on the whole reporter state (manager results and counters included), and
the log of addResult invocations never repeats a dedup key. -/
theorem streamReporter_once (s : ReporterState) (files : List VFile) :
    onFinished (onFinished s files) files = onFinished s files ∧
    (reporterInvariant s →
      ((onFinished s files).addLog.Nodup ∧
        ∀ key : String, (onFinished s files).addLog.count key ≤ 1)) := by
  constructor
  · unfold onFinished
    have hkeys : ∀ k ∈ filesKeys files, k ∈ (foldFiles s files).processedTests :=
      fun k hk => foldFiles_complete files s k hk
    have hskip : foldFiles
        { foldFiles s files with manager := (foldFiles s files).manager.onComplete } files =
        { foldFiles s files with manager := (foldFiles s files).manager.onComplete } :=
      foldFiles_skip files _ (fun k hk => hkeys k hk)
    rw [hskip]
    rfl
  · intro hinv
    have h2 : reporterInvariant (onFinished s files) := by
      unfold onFinished
      have hfold := foldFiles_inv files s hinv
      exact ⟨hfold.1, fun k hk => hfold.2 k hk⟩
    exact ⟨h2.1, fun key => List.nodup_iff_count_le_one.mp h2.1 key⟩

/-- Vitest test t1 in file f.ts with a passing result. -/
def wInfo1 : TestInfo :=
  { name := "t1", fileName := some "f.ts"
    result := some { state := some "pass", duration := some 5, errors := none } }

/-- Vitest test t2 in file f.ts with no result yet. -/
def wInfo2 : TestInfo :=
  { name := "t2", fileName := some "f.ts", result := none }

/-- File whose task tree mentions t1 twice (once at top level and once
inside a nested suite). -/
def wFile : VFile :=
  { name := "f.ts"
    tasks := [TaskTree.test wInfo1,
      TaskTree.suite [TaskTree.test wInfo1, TaskTree.test wInfo2]] }

/-- Reporter state right after construction / onInit. -/
def wStart : ReporterState :=
  { processedTests := [], manager := initialState, addLog := [] }

/-- Witness instantiating the at-most-once theorem on an overlapping tree. -/
theorem streamReporter_once_witness :
    onFinished (onFinished wStart [wFile]) [wFile] = onFinished wStart [wFile] ∧
    (onFinished wStart [wFile]).addLog.Nodup ∧
    (onFinished wStart [wFile]).addLog.count "f.ts::t1" ≤ 1 := by
  obtain ⟨h1, h2⟩ := streamReporter_once wStart [wFile]
  have h3 := h2 (by constructor <;> simp [wStart, reporterInvariant])
  exact ⟨h1, h3.1, h3.2 "f.ts::t1"⟩

/-- One Ajv schema violation as surfaced in `validate.errors`: an instance
path plus a message. -/
structure Violation where
  instancePath : String
  message : String
deriving DecidableEq

/-- Media type object of an OpenAPI response: an optional JSON schema. -/
structure MediaTypeObj (σ : Type) where
  schema : Option σ
deriving DecidableEq

/-- Response object of an OpenAPI operation, keyed by content type. -/
structure ResponseSpec (σ : Type) where
  content : List (String × MediaTypeObj σ)
deriving DecidableEq

/-- OpenAPI operation: responses keyed by status-code string. -/
structure Operation (σ : Type) where
  responses : List (String × ResponseSpec σ)
deriving DecidableEq

/-- OpenAPI path item: operations keyed by lowercase method name. -/
structure PathItem (σ : Type) where
  ops : List (String × Operation σ)
deriving DecidableEq

/-- Dereferenced OpenAPI description: path items keyed by exact path. -/
structure ApiDescription (σ : Type) where
  paths : List (String × PathItem σ)
deriving DecidableEq

/-- Request information attached to a supertest response (`received.req`). -/
structure ReqInfo where
  method : Option String
  path : Option String
deriving DecidableEq

/-- Observed response object handed to the matcher: status (and its
statusCode fallback), parsed body, and optional request info. -/
structure Received (β : Type) where
  status : Option Nat
  statusCode : Option Nat
  body : β
  req : Option ReqInfo
deriving DecidableEq

/-- Outcome of the toSatisfyApiSpec matcher: pass, or one of its distinct
diagnostic kinds, each carrying the data its message interpolates. -/
inductive CheckResult (β σ : Type) where
  | pass
  | missingReq
  | cannotDetermine (method : Option String) (path : Option String)
  | pathNotFound (path : String)
  | methodNotDefined (method : String) (path : String)
  | statusNotDefined (status : Nat) (validStatuses : List String)
  | bodyViolation (errors : List Violation) (actual : β) (expected : σ)
deriving DecidableEq

/-- ASCII lowercasing over the string's characters, the embedding of
`toLowerCase()` on the ASCII method and keyword strings the harness uses. -/
def lowerStr (s : String) : String :=
  String.mk (s.data.map Char.toLower)

/-- Status resolution `received.status || received.statusCode` (0 and
undefined are falsy; both absent is embedded as 0). -/
def resolvedStatus {β : Type} (received : Received β) : Nat :=
  match received.status with
  | some s => if s = 0 then (match received.statusCode with | some sc => sc | none => 0) else s
  | none => match received.statusCode with | some sc => sc | none => 0

/-- The toSatisfyApiSpec custom matcher (vitest.setup.ts), abstracted over
the Ajv validation function `validate` (external library): resolves path,
lowercased method and status against the dereferenced description with
exact matching, then validates the body against the application/json schema
when one is attached. -/
def toSatisfyApiSpec {β σ : Type} (validate : σ → β → List Violation)
    (description : ApiDescription σ) (received : Received β) : CheckResult β σ :=
  match received.req with
  | none => CheckResult.missingReq
  | some req =>
    match req.method.map lowerStr, req.path with
    | some method, some path =>
      if method = "" ∨ path = "" then CheckResult.cannotDetermine (some method) (some path)
      else
        match lookupName description.paths path with
        | none => CheckResult.pathNotFound path
        | some pathItem =>
          match lookupName pathItem.ops method with
          | none => CheckResult.methodNotDefined method path
          | some operation =>
            match lookupName operation.responses (toString (resolvedStatus received)) with
            | none =>
              CheckResult.statusNotDefined (resolvedStatus received)
                (operation.responses.map Prod.fst)
            | some responseSpec =>
              match lookupName responseSpec.content "application/json" with
              | none => CheckResult.pass
              | some mediaType =>
                match mediaType.schema with
                | none => CheckResult.pass
                | some expected =>
                  match validate expected received.body with
                  | [] => CheckResult.pass
                  | e :: es => CheckResult.bodyViolation (e :: es) received.body expected
    | mo, po => CheckResult.cannotDetermine mo po

/-- C4: an exchange whose path and lowercased method are defined in the
interface description but whose status code is not among the operation's
defined responses fails with the status-not-defined diagnostic that carries
exactly the list of statuses defined for that operation. -/
theorem toSatisfyApiSpec_statusNotDefined {β σ : Type} (validate : σ → β → List Violation)
    (d : ApiDescription σ) (received : Received β) (req : ReqInfo)
    (rawMethod path : String) (pathItem : PathItem σ) (operation : Operation σ)
    (hreq : received.req = some req)
    (hm : req.method = some rawMethod) (hp : req.path = some path)
    (hm' : lowerStr rawMethod ≠ "") (hp' : path ≠ "")
    (hpath : lookupName d.paths path = some pathItem)
    (hop : lookupName pathItem.ops (lowerStr rawMethod) = some operation)
    (hst : lookupName operation.responses (toString (resolvedStatus received)) = none) :
    toSatisfyApiSpec validate d received =
      CheckResult.statusNotDefined (resolvedStatus received)
        (operation.responses.map Prod.fst) := by
  simp [toSatisfyApiSpec, hreq, hm, hp, hm', hp', hpath, hop, hst]

/-- Interface description for the schema matcher.  Modelled from the spec:
the OpenAPI description file (openapi.agentic_checkout.yaml, loaded from the
spec/ directory or the protocol submodule) is not among the source files;
per the spec's concrete scenario, POST /checkout_sessions defines the
statuses 200, 201 and 400. -/
def acpCheckoutDescription : ApiDescription Unit :=
  { paths := [("/checkout_sessions",
    { ops := [("post",
      { responses :=
        [("200", { content := [] }),
         ("201", { content := [] }),
         ("400", { content := [] })] })] })] }

/-- Observed response with status 418 for POST /checkout_sessions. -/
def teapotReceived : Received Unit :=
  { status := some 418
    statusCode := some 418
    body := ()
    req := some { method := some "POST", path := some "/checkout_sessions" } }

/-- Validation oracle with no violations, for schema-less witnesses. -/
def noViolations : Unit → Unit → List Violation := fun _ _ => []

/-- Witness: the 418 response for POST /checkout_sessions fails with the
status-not-defined diagnostic listing exactly 200, 201, 400. -/
theorem toSatisfyApiSpec_statusNotDefined_witness :
    toSatisfyApiSpec noViolations acpCheckoutDescription teapotReceived =
      CheckResult.statusNotDefined 418 ["200", "201", "400"] := by
  have h := toSatisfyApiSpec_statusNotDefined noViolations acpCheckoutDescription teapotReceived
    { method := some "POST", path := some "/checkout_sessions" } "POST" "/checkout_sessions"
    { ops := [("post",
      { responses :=
        [("200", { content := [] }),
         ("201", { content := [] }),
         ("400", { content := [] })] })] }
    { responses :=
        [("200", { content := [] }),
         ("201", { content := [] }),
         ("400", { content := [] })] }
    rfl rfl rfl (by decide) (by decide) (by decide) (by decide) (by decide)
  rw [h]
  decide

/-- C5: path and method resolution is exact-match with distinct failure
modes and never a silent pass: a path that is not a key of the description
fails with the path-not-found diagnostic whatever the method, status and
body are, and an existing path whose lowercased method is not defined on
the path item fails with a diagnostic naming that method and path. -/
theorem toSatisfyApiSpec_path_method_diagnostics {β σ : Type}
    (validate : σ → β → List Violation) (d : ApiDescription σ) :
    (∀ (received : Received β) (req : ReqInfo) (rawMethod path : String),
      received.req = some req → req.method = some rawMethod → req.path = some path →
      lowerStr rawMethod ≠ "" → path ≠ "" →
      lookupName d.paths path = none →
      toSatisfyApiSpec validate d received = CheckResult.pathNotFound path) ∧
    (∀ (received : Received β) (req : ReqInfo) (rawMethod path : String)
      (pathItem : PathItem σ),
      received.req = some req → req.method = some rawMethod → req.path = some path →
      lowerStr rawMethod ≠ "" → path ≠ "" →
      lookupName d.paths path = some pathItem →
      lookupName pathItem.ops (lowerStr rawMethod) = none →
      toSatisfyApiSpec validate d received =
        CheckResult.methodNotDefined (lowerStr rawMethod) path) := by
  constructor
  · intro received req rawMethod path hreq hm hp hm' hp' hpath
    simp [toSatisfyApiSpec, hreq, hm, hp, hm', hp', hpath]
  · intro received req rawMethod path pathItem hreq hm hp hm' hp' hpath hop
    simp [toSatisfyApiSpec, hreq, hm, hp, hm', hp', hpath, hop]

/-- Observed response for DELETE on an unknown path. -/
def unknownPathReceived : Received Unit :=
  { status := some 200
    statusCode := some 200
    body := ()
    req := some { method := some "GET", path := some "/nope" } }

/-- Observed response for DELETE /checkout_sessions (method not defined). -/
def deleteReceived : Received Unit :=
  { status := some 200
    statusCode := some 200
    body := ()
    req := some { method := some "DELETE", path := some "/checkout_sessions" } }

/-- Witness: a missing path yields path-not-found whatever the status, and
DELETE on /checkout_sessions yields the method diagnostic naming method and
path. -/
theorem toSatisfyApiSpec_path_method_witness :
    toSatisfyApiSpec noViolations acpCheckoutDescription unknownPathReceived =
      CheckResult.pathNotFound "/nope" ∧
    toSatisfyApiSpec noViolations acpCheckoutDescription deleteReceived =
      CheckResult.methodNotDefined "delete" "/checkout_sessions" := by
  obtain ⟨h1, h2⟩ := toSatisfyApiSpec_path_method_diagnostics noViolations acpCheckoutDescription
  constructor
  · exact h1 unknownPathReceived { method := some "GET", path := some "/nope" } "GET" "/nope"
      rfl rfl rfl (by decide) (by decide) (by decide)
  · have h := h2 deleteReceived { method := some "DELETE", path := some "/checkout_sessions" }
      "DELETE" "/checkout_sessions"
      { ops := [("post",
        { responses :=
          [("200", { content := [] }),
           ("201", { content := [] }),
           ("400", { content := [] })] })] }
      rfl rfl rfl (by decide) (by decide) (by decide) (by decide)
    rw [h]
    decide

/-- C6: for an exchange whose path, method and status are all defined, the
check passes when no application/json schema is attached; when a schema is
attached it passes exactly when the validator reports no violations, and on
violation the diagnostic carries the violation list together with the
actual body and the expected schema. -/
theorem toSatisfyApiSpec_schema_validation {β σ : Type}
    (validate : σ → β → List Violation) (d : ApiDescription σ)
    (received : Received β) (req : ReqInfo) (rawMethod path : String)
    (pathItem : PathItem σ) (operation : Operation σ) (responseSpec : ResponseSpec σ)
    (hreq : received.req = some req)
    (hm : req.method = some rawMethod) (hp : req.path = some path)
    (hm' : lowerStr rawMethod ≠ "") (hp' : path ≠ "")
    (hpath : lookupName d.paths path = some pathItem)
    (hop : lookupName pathItem.ops (lowerStr rawMethod) = some operation)
    (hst : lookupName operation.responses (toString (resolvedStatus received)) =
      some responseSpec) :
    (lookupName responseSpec.content "application/json" = none →
      toSatisfyApiSpec validate d received = CheckResult.pass) ∧
    (∀ mediaType : MediaTypeObj σ,
      lookupName responseSpec.content "application/json" = some mediaType →
      mediaType.schema = none →
      toSatisfyApiSpec validate d received = CheckResult.pass) ∧
    (∀ (mediaType : MediaTypeObj σ) (sch : σ),
      lookupName responseSpec.content "application/json" = some mediaType →
      mediaType.schema = some sch →
      ((toSatisfyApiSpec validate d received = CheckResult.pass ↔
          validate sch received.body = []) ∧
        (∀ errs : List Violation, validate sch received.body = errs → errs ≠ [] →
          toSatisfyApiSpec validate d received =
            CheckResult.bodyViolation errs received.body sch))) := by
  refine ⟨?_, ?_, ?_⟩
  · intro hct
    simp [toSatisfyApiSpec, hreq, hm, hp, hm', hp', hpath, hop, hst, hct]
  · intro mediaType hct hsch
    simp [toSatisfyApiSpec, hreq, hm, hp, hm', hp', hpath, hop, hst, hct, hsch]
  · intro mediaType sch hct hsch
    constructor
    · cases hv : validate sch received.body with
      | nil =>
        have hpass : toSatisfyApiSpec validate d received = CheckResult.pass := by
          simp [toSatisfyApiSpec, hreq, hm, hp, hm', hp', hpath, hop, hst, hct, hsch, hv]
        exact ⟨fun _ => rfl, fun _ => hpass⟩
      | cons e es =>
        have hbv : toSatisfyApiSpec validate d received =
            CheckResult.bodyViolation (e :: es) received.body sch := by
          simp [toSatisfyApiSpec, hreq, hm, hp, hm', hp', hpath, hop, hst, hct, hsch, hv]
        constructor
        · intro hcontra
          rw [hbv] at hcontra
          cases hcontra
        · intro hcontra
          cases hcontra
    · intro errs hv hne
      cases errs with
      | nil => exact absurd rfl hne
      | cons e es =>
        simp [toSatisfyApiSpec, hreq, hm, hp, hm', hp', hpath, hop, hst, hct, hsch, hv]

/-- Media type carrying the marker schema for the witness. -/
def witMedia : MediaTypeObj Unit := { schema := some () }

/-- Description with one path, one operation, status 200 carrying a JSON
schema. -/
def witDescription : ApiDescription Unit :=
  { paths := [("/checkout_sessions",
    { ops := [("post",
      { responses := [("200", { content := [("application/json", witMedia)] })] })] })] }

/-- Observed 200 response for the schema witness. -/
def witReceived : Received Unit :=
  { status := some 200
    statusCode := some 200
    body := ()
    req := some { method := some "POST", path := some "/checkout_sessions" } }

/-- Validation oracle reporting one violation for every body. -/
def oneViolation : Unit → Unit → List Violation :=
  fun _ _ => [{ instancePath := "/total", message := "must be integer" }]

/-- Witness: with a satisfied schema the check passes, and with a violating
body it fails carrying the violation list, the body and the schema. -/
theorem toSatisfyApiSpec_schema_validation_witness :
    toSatisfyApiSpec noViolations witDescription witReceived = CheckResult.pass ∧
    toSatisfyApiSpec oneViolation witDescription witReceived =
      CheckResult.bodyViolation
        [{ instancePath := "/total", message := "must be integer" }] () () := by
  obtain ⟨_, _, h3⟩ := toSatisfyApiSpec_schema_validation noViolations witDescription witReceived
    { method := some "POST", path := some "/checkout_sessions" } "POST" "/checkout_sessions"
    { ops := [("post",
      { responses := [("200", { content := [("application/json", witMedia)] })] })] }
    { responses := [("200", { content := [("application/json", witMedia)] })] }
    { content := [("application/json", witMedia)] }
    rfl rfl rfl (by decide) (by decide) (by decide) (by decide) (by decide)
  obtain ⟨_, _, g3⟩ := toSatisfyApiSpec_schema_validation oneViolation witDescription witReceived
    { method := some "POST", path := some "/checkout_sessions" } "POST" "/checkout_sessions"
    { ops := [("post",
      { responses := [("200", { content := [("application/json", witMedia)] })] })] }
    { responses := [("200", { content := [("application/json", witMedia)] })] }
    { content := [("application/json", witMedia)] }
    rfl rfl rfl (by decide) (by decide) (by decide) (by decide) (by decide)
  constructor
  · exact ((h3 witMedia () (by decide) rfl).1).mpr rfl
  · exact (g3 witMedia () (by decide) rfl).2
      [{ instancePath := "/total", message := "must be integer" }] rfl (by decide)

/-- Bool test that the first list is a leading segment of the second. -/
def leadsWith : List Char → List Char → Bool
  | [], _ => true
  | _ :: _, [] => false
  | c :: cs, d :: ds => c == d && leadsWith cs ds

/-- Bool test that the pattern occurs contiguously inside the text. -/
def hasSeq (pat : List Char) : List Char → Bool
  | [] => leadsWith pat []
  | c :: rest => leadsWith pat (c :: rest) || hasSeq pat rest

/-- Embedding of `s.includes(sub)` on the strings the categorizer uses. -/
def strIncludes (s sub : String) : Bool :=
  hasSeq sub.data s.data

/-- The fixed closed set of certification categories
(src/core/categories.ts, type TestCategory). -/
inductive TestCategory where
  | sessionCreation
  | shippingOptions
  | orderCompletion
  | errorScenarios
  | idempotency
  | schemaValidation
  | totalsValidation
  | cancelOperations
  | getOperations
  | happyPathFlows
  | other
deriving DecidableEq

/-- Display string of each category, as in the source string union. -/
def TestCategory.label : TestCategory → String
  | TestCategory.sessionCreation => "Session Creation & Address Handling"
  | TestCategory.shippingOptions => "Shipping Option Updates"
  | TestCategory.orderCompletion => "Order Completion"
  | TestCategory.errorScenarios => "Error Scenarios"
  | TestCategory.idempotency => "Idempotency"
  | TestCategory.schemaValidation => "Schema Validation"
  | TestCategory.totalsValidation => "Totals Validation"
  | TestCategory.cancelOperations => "Cancel Operations"
  | TestCategory.getOperations => "Get Operations"
  | TestCategory.happyPathFlows => "Happy Path Flows"
  | TestCategory.other => "Other"

/-- categorizeTest (src/core/categories.ts): ordered keyword rules over the
lowercased test name and suite path, first match wins, Other as default. -/
def categorizeTest (testName : String) (suiteName : Option String) : TestCategory :=
  let name := lowerStr testName
  let suite := lowerStr (match suiteName with | some s => s | none => "")
  if strIncludes name "create session" || strIncludes name "shipping address" ||
      strIncludes name "buyer information" || strIncludes suite "post /checkout_sessions" ||
      strIncludes suite "session creation" then
    TestCategory.sessionCreation
  else if strIncludes name "shipping option" || strIncludes name "fulfillment" ||
      strIncludes name "select shipping" ||
      (strIncludes suite "update" && strIncludes name "shipping") then
    TestCategory.shippingOptions
  else if strIncludes name "complete" || strIncludes name "payment" ||
      strIncludes name "order_id" || strIncludes suite "complete" then
    TestCategory.orderCompletion
  else if strIncludes name "error" || strIncludes name "missing" ||
      strIncludes name "invalid" || strIncludes name "out_of_stock" ||
      strIncludes name "payment_declined" || strIncludes suite "error" then
    TestCategory.errorScenarios
  else if strIncludes name "idempotency" || strIncludes name "duplicate" ||
      strIncludes name "same idempotency-key" || strIncludes suite "idempotency" then
    TestCategory.idempotency
  else if strIncludes name "schema" || strIncludes name "openapi" ||
      strIncludes name "spec" || strIncludes suite "schema validation" then
    TestCategory.schemaValidation
  else if strIncludes name "total" || strIncludes name "calculation" ||
      strIncludes name "formula" || strIncludes suite "totals" then
    TestCategory.totalsValidation
  else if strIncludes name "cancel" || strIncludes suite "cancel" then
    TestCategory.cancelOperations
  else if (strIncludes name "get" && strIncludes name "session") ||
      strIncludes name "retrieve" || strIncludes suite "get /checkout_sessions" then
    TestCategory.getOperations
  else if strIncludes name "full flow" || strIncludes name "complete flow" ||
      strIncludes name "happy path" || strIncludes suite "happy path" then
    TestCategory.happyPathFlows
  else TestCategory.other

/-- Modelled from the spec: the categorizer as an ordered list of
keyword-rule / category pairs, evaluated top to bottom over the lowercased
name and suite. -/
def categoryRules : List ((String → String → Bool) × TestCategory) :=
  [(fun name suite => strIncludes name "create session" || strIncludes name "shipping address" ||
      strIncludes name "buyer information" || strIncludes suite "post /checkout_sessions" ||
      strIncludes suite "session creation", TestCategory.sessionCreation),
   (fun name suite => strIncludes name "shipping option" || strIncludes name "fulfillment" ||
      strIncludes name "select shipping" ||
      (strIncludes suite "update" && strIncludes name "shipping"), TestCategory.shippingOptions),
   (fun name suite => strIncludes name "complete" || strIncludes name "payment" ||
      strIncludes name "order_id" || strIncludes suite "complete", TestCategory.orderCompletion),
   (fun name suite => strIncludes name "error" || strIncludes name "missing" ||
      strIncludes name "invalid" || strIncludes name "out_of_stock" ||
      strIncludes name "payment_declined" || strIncludes suite "error", TestCategory.errorScenarios),
   (fun name suite => strIncludes name "idempotency" || strIncludes name "duplicate" ||
      strIncludes name "same idempotency-key" || strIncludes suite "idempotency",
      TestCategory.idempotency),
   (fun name suite => strIncludes name "schema" || strIncludes name "openapi" ||
      strIncludes name "spec" || strIncludes suite "schema validation",
      TestCategory.schemaValidation),
   (fun name suite => strIncludes name "total" || strIncludes name "calculation" ||
      strIncludes name "formula" || strIncludes suite "totals", TestCategory.totalsValidation),
   (fun name suite => strIncludes name "cancel" || strIncludes suite "cancel",
      TestCategory.cancelOperations),
   (fun name suite => (strIncludes name "get" && strIncludes name "session") ||
      strIncludes name "retrieve" || strIncludes suite "get /checkout_sessions",
      TestCategory.getOperations),
   (fun name suite => strIncludes name "full flow" || strIncludes name "complete flow" ||
      strIncludes name "happy path" || strIncludes suite "happy path",
      TestCategory.happyPathFlows)]

/-- Modelled from the spec: first matching rule wins, Other when no rule
matches. -/
def firstMatchCategory : List ((String → String → Bool) × TestCategory) → String → String → TestCategory
  | [], _, _ => TestCategory.other
  | (cond, cat) :: rest, name, suite =>
    if cond name suite then cat else firstMatchCategory rest name suite

/-- Modelled from the spec: the categorizer as the ordered-rule classifier
over the lowercased inputs. -/
def specCategorize (testName : String) (suiteName : Option String) : TestCategory :=
  firstMatchCategory categoryRules (lowerStr testName)
    (lowerStr (match suiteName with | some s => s | none => ""))

/-- C7: categorizeTest is a pure total deterministic function: it equals
itself on every input, it coincides with the spec's ordered first-match-wins
rule classifier (with Other as the default when no rule matches), and its
result is always one of the eleven fixed categories. -/
theorem categorizeTest_total_deterministic (testName : String) (suiteName : Option String) :
    categorizeTest testName suiteName = categorizeTest testName suiteName ∧
    categorizeTest testName suiteName = specCategorize testName suiteName ∧
    categorizeTest testName suiteName ∈
      [TestCategory.sessionCreation, TestCategory.shippingOptions,
       TestCategory.orderCompletion, TestCategory.errorScenarios,
       TestCategory.idempotency, TestCategory.schemaValidation,
       TestCategory.totalsValidation, TestCategory.cancelOperations,
       TestCategory.getOperations, TestCategory.happyPathFlows,
       TestCategory.other] := by
  refine ⟨rfl, rfl, ?_⟩
  cases categorizeTest testName suiteName <;> decide
